import Mathlib

/-!
Verification of the consent-gated dispatch pipeline of `kafka-to-bwhc`.

The development shallowly embeds the Rust sources:
  * `src/resources/request.rs`   — `Request` envelope parsing,
  * `src/resources/mtbfile.rs`   — `MTBFileWithConsent` / `Consent` / `Status`,
  * `src/bwhc_client.rs`         — the downstream HTTP client,
  * `src/main.rs`                — `KafkaResponsePayload` and `handle_message`.

JSON documents are modelled by the inductive `Json`. The serde_json library
used by the source is embedded by an executable recursive-descent parser
(`parseJson`), a compact serializer (`Json.toCompactString`, mirroring
`serde_json::Value::to_string`), and serde-derive style struct decoders that
walk the members of a document in order, filling one slot per field, raising
an error on a duplicate field and ignoring unknown fields.  JSON numbers are
modelled as integers (the pipeline never interprets numeric payload fields),
string escapes cover the quote and backslash escapes the serializer emits,
and object member order is kept as in the document.
-/

inductive Json where
  | null
  | bool (b : Bool)
  | num (n : Int)
  | str (s : String)
  | arr (elems : List Json)
  | obj (members : List (String × Json))
deriving Repr

/-- Left curly brace character. -/
def lbrace : Char := Char.ofNat 123

/-- Right curly brace character. -/
def rbrace : Char := Char.ofNat 125

/-- JSON insignificant whitespace: space, tab, line feed, carriage return. -/
def isJsonWs (c : Char) : Bool :=
  c = ' ' || c = '\t' || c = '\n' || c = '\r'

/-- Drop leading JSON whitespace. -/
def skipWs : List Char → List Char
  | [] => []
  | c :: cs => if isJsonWs c then skipWs cs else c :: cs

/-- Serialize one character of a JSON string, escaping quote and backslash. -/
def escChar (c : Char) : List Char :=
  if c = '"' || c = '\\' then ['\\', c] else [c]

/-- Serialize the characters of a JSON string. -/
def escList : List Char → List Char
  | [] => []
  | c :: cs => escChar c ++ escList cs

/-- The decimal digit character for `d < 10`. -/
def digitCh (d : Nat) : Char := Char.ofNat (48 + d)

/-- Decimal printer with explicit fuel (structural, so it evaluates in the kernel). -/
def natCharsF : Nat → Nat → List Char
  | 0, _ => []
  | fuel + 1, n => if n < 10 then [digitCh n] else natCharsF fuel (n / 10) ++ [digitCh (n % 10)]

/-- Decimal representation of a natural number. -/
def natChars (n : Nat) : List Char := natCharsF (n + 1) n

/-- Decimal representation of an integer, as serde_json prints it. -/
def intChars (n : Int) : List Char :=
  if n < 0 then '-' :: natChars n.natAbs else natChars n.toNat

mutual

/-- Compact serialization of a JSON value, as `serde_json::Value::to_string`. -/
def serValue : Json → List Char
  | .null => "null".data
  | .bool true => "true".data
  | .bool false => "false".data
  | .num n => intChars n
  | .str s => '"' :: (escList s.data ++ ['"'])
  | .arr xs => '[' :: (serElems xs ++ [']'])
  | .obj ms => lbrace :: (serMembers ms ++ [rbrace])

/-- Comma-separated serialization of array elements. -/
def serElems : List Json → List Char
  | [] => []
  | [x] => serValue x
  | x :: y :: rest => serValue x ++ ',' :: serElems (y :: rest)

/-- Comma-separated serialization of object members. -/
def serMembers : List (String × Json) → List Char
  | [] => []
  | [(k, v)] => '"' :: (escList k.data ++ '"' :: ':' :: serValue v)
  | (k, v) :: m :: rest =>
      ('"' :: (escList k.data ++ '"' :: ':' :: serValue v)) ++ ',' :: serMembers (m :: rest)

end

/-- Compact textual form of a JSON value (`Value::to_string` in serde_json). -/
def Json.toCompactString (v : Json) : String := String.mk (serValue v)

/-- Resolve a JSON string escape character. -/
def unescapeChar (e : Char) : Option Char :=
  if e = '"' then some '"'
  else if e = '\\' then some '\\'
  else if e = '/' then some '/'
  else if e = 'n' then some '\n'
  else if e = 't' then some '\t'
  else if e = 'r' then some '\r'
  else if e = 'b' then some (Char.ofNat 8)
  else if e = 'f' then some (Char.ofNat 12)
  else none

/-- Parse the body of a JSON string after the opening quote; returns the
decoded characters and the input following the closing quote. -/
def parseStringBody : List Char → Option (List Char × List Char)
  | [] => none
  | c :: cs =>
    if c = '"' then some ([], cs)
    else if c = '\\' then
      match cs with
      | [] => none
      | e :: cs' =>
        match unescapeChar e with
        | some u =>
          match parseStringBody cs' with
          | some (l, r) => some (u :: l, r)
          | none => none
        | none => none
    else
      match parseStringBody cs with
      | some (l, r) => some (c :: l, r)
      | none => none

/-- Split the longest run of decimal digits off the front of the input. -/
def takeDigits : List Char → List Char × List Char
  | [] => ([], [])
  | c :: cs =>
    if c.isDigit then
      match takeDigits cs with
      | (ds, r) => (c :: ds, r)
    else ([], c :: cs)

/-- Numeric value of a run of decimal digit characters. -/
def digitsToNat (ds : List Char) : Nat :=
  ds.foldl (fun acc c => acc * 10 + (c.toNat - 48)) 0

mutual

/-- Recursive-descent parser for one JSON value.  The fuel argument only
bounds the recursion; `parseJsonList` supplies enough for any input. -/
def parseValue : Nat → List Char → Option (Json × List Char)
  | 0, _ => none
  | fuel + 1, cs =>
    match skipWs cs with
    | [] => none
    | c :: rest =>
      if c = 'n' then
        match rest with
        | 'u' :: 'l' :: 'l' :: r => some (.null, r)
        | _ => none
      else if c = 't' then
        match rest with
        | 'r' :: 'u' :: 'e' :: r => some (.bool true, r)
        | _ => none
      else if c = 'f' then
        match rest with
        | 'a' :: 'l' :: 's' :: 'e' :: r => some (.bool false, r)
        | _ => none
      else if c = '"' then
        match parseStringBody rest with
        | some (l, r) => some (.str (String.mk l), r)
        | none => none
      else if c = '-' then
        match takeDigits rest with
        | ([], _) => none
        | (ds, r) => some (.num (-(digitsToNat ds : Int)), r)
      else if c = '[' then
        match skipWs rest with
        | c2 :: r2 =>
          if c2 = ']' then some (.arr [], r2)
          else
            match parseElems fuel rest with
            | some (xs, r) => some (.arr xs, r)
            | none => none
        | [] => none
      else if c = lbrace then
        match skipWs rest with
        | c2 :: r2 =>
          if c2 = rbrace then some (.obj [], r2)
          else
            match parseMembers fuel rest with
            | some (ms, r) => some (.obj ms, r)
            | none => none
        | [] => none
      else if c.isDigit then
        match takeDigits (c :: rest) with
        | ([], _) => none
        | (ds, r) => some (.num (digitsToNat ds : Int), r)
      else none

/-- Parse the comma-separated elements of a non-empty array, including the
closing bracket. -/
def parseElems : Nat → List Char → Option (List Json × List Char)
  | 0, _ => none
  | fuel + 1, cs =>
    match parseValue fuel cs with
    | some (v, rest) =>
      match skipWs rest with
      | c :: r =>
        if c = ',' then
          match parseElems fuel r with
          | some (xs, r2) => some (v :: xs, r2)
          | none => none
        else if c = ']' then some ([v], r)
        else none
      | [] => none
    | none => none

/-- Parse the comma-separated members of a non-empty object, including the
closing brace. -/
def parseMembers : Nat → List Char → Option (List (String × Json) × List Char)
  | 0, _ => none
  | fuel + 1, cs =>
    match skipWs cs with
    | c :: rest =>
      if c = '"' then
        match parseStringBody rest with
        | some (kl, r1) =>
          match skipWs r1 with
          | c2 :: r2 =>
            if c2 = ':' then
              match parseValue fuel r2 with
              | some (v, r3) =>
                match skipWs r3 with
                | c3 :: r4 =>
                  if c3 = ',' then
                    match parseMembers fuel r4 with
                    | some (ms, r5) => some ((String.mk kl, v) :: ms, r5)
                    | none => none
                  else if c3 = rbrace then some ([(String.mk kl, v)], r4)
                  else none
                | [] => none
              | none => none
            else none
          | [] => none
        | none => none
      else none
    | [] => none

end

/-- Parse a complete JSON document given as a character list; trailing
whitespace is allowed, anything else after the value is an error. -/
def parseJsonList (cs : List Char) : Option Json :=
  match parseValue (cs.length + 1) cs with
  | some (v, rest) => if skipWs rest = [] then some v else none
  | none => none

/-- Parse a complete JSON document (`serde_json::from_str` entry point). -/
def parseJson (s : String) : Option Json := parseJsonList s.data

example : parseJson "null" = some .null := rfl
example : parseJson " [1, -20, \"a\\\"b\"] " =
    some (.arr [.num 1, .num (-20), .str "a\"b"]) := rfl
example : parseJson "\x7b\"a\": true, \"b\": \x7b\x7d\x7d" =
    some (.obj [("a", .bool true), ("b", .obj [])]) := rfl
example : (Json.obj [("a", .num 900), ("b", .str "x\\y")]).toCompactString =
    "\x7b\"a\":900,\"b\":\"x\\\\y\"\x7d" := rfl
example : parseJson "\x7b\"a\":1" = none := rfl

/-- Insert a member into a JSON object map: a repeated key replaces the
previously stored value in place, a new key is appended
(`serde_json::Map::insert`, last value wins). -/
def insertKV : List (String × Json) → String → Json → List (String × Json)
  | [], k, v => [(k, v)]
  | (k', v') :: rest, k, v =>
    if k' = k then (k, v) :: rest else (k', v') :: insertKV rest k v

mutual

/-- Build the `serde_json::Value` for a raw parse tree: arrays element-wise,
objects by successive map insertion, so duplicate keys collapse. -/
def toValue : Json → Json
  | .null => .null
  | .bool b => .bool b
  | .num n => .num n
  | .str s => .str s
  | .arr xs => .arr (toValueList xs)
  | .obj ms => .obj (toValueMembers ms [])

/-- `toValue` on every element of an array. -/
def toValueList : List Json → List Json
  | [] => []
  | x :: xs => toValue x :: toValueList xs

/-- Fold the raw members of an object into a map, in document order. -/
def toValueMembers : List (String × Json) → List (String × Json) → List (String × Json)
  | [], acc => acc
  | (k, v) :: rest, acc => toValueMembers rest (insertKV acc k (toValue v))

end

/-- First value stored under a key in an object member list. -/
def lookupKey : List (String × Json) → String → Option Json
  | [], _ => none
  | (k', v) :: rest, k => if k' = k then some v else lookupKey rest k

/-- Consent status, from `mtbfile.rs`: wire values `"active"` / `"rejected"`. -/
inductive Status where
  | Active
  | Rejected
deriving Repr, DecidableEq

/-- `Consent` from `mtbfile.rs`: a status and a patient identifier. -/
structure Consent where
  status : Status
  patient : String
deriving Repr, DecidableEq

/-- `MTBFileWithConsent` from `mtbfile.rs`. -/
structure MTBFileWithConsent where
  consent : Consent
deriving Repr, DecidableEq

/-- `Request` from `request.rs`: correlation id plus the opaque content value. -/
structure Request where
  request_id : String
  content : Json
deriving Repr

/-- serde decode of `Status` from a JSON value: exactly the two renamed
unit variants. -/
def decodeStatus : Json → Except Unit Status
  | .str s =>
    if s = "active" then .ok .Active
    else if s = "rejected" then .ok .Rejected
    else .error ()
  | _ => .error ()

/-- serde decode of a Rust `String` field from a JSON value. -/
def decodeString : Json → Except Unit String
  | .str s => .ok s
  | _ => .error ()

/-- serde-derive field loop for `Consent`: fills the `status` and `patient`
slots in document order, errors on a duplicate or missing field, ignores
unknown fields. -/
def decodeConsentFields : List (String × Json) → Option Status → Option String →
    Except Unit Consent
  | [], some st, some p => .ok ⟨st, p⟩
  | [], _, _ => .error ()
  | (k, v) :: rest, st, p =>
    if k = "status" then
      match st with
      | some _ => .error ()
      | none =>
        match decodeStatus v with
        | .ok s => decodeConsentFields rest (some s) p
        | .error _ => .error ()
    else if k = "patient" then
      match p with
      | some _ => .error ()
      | none =>
        match decodeString v with
        | .ok s => decodeConsentFields rest st (some s)
        | .error _ => .error ()
    else decodeConsentFields rest st p

/-- serde decode of `Consent` from a JSON value. -/
def decodeConsent : Json → Except Unit Consent
  | .obj ms => decodeConsentFields ms none none
  | _ => .error ()

/-- serde-derive field loop for `MTBFileWithConsent`: a single `consent`
slot, duplicate errors, unknown fields ignored. -/
def decodeMTBFileFields : List (String × Json) → Option Consent →
    Except Unit MTBFileWithConsent
  | [], some c => .ok ⟨c⟩
  | [], none => .error ()
  | (k, v) :: rest, c =>
    if k = "consent" then
      match c with
      | some _ => .error ()
      | none =>
        match decodeConsent v with
        | .ok cv => decodeMTBFileFields rest (some cv)
        | .error _ => .error ()
    else decodeMTBFileFields rest c

/-- serde decode of `MTBFileWithConsent` from a JSON value. -/
def decodeMTBFile : Json → Except Unit MTBFileWithConsent
  | .obj ms => decodeMTBFileFields ms none
  | _ => .error ()

/-- A document key recognized as the correlation-id field: the declared name
or its serde alias (`#[serde(alias = "requestId")]`). -/
def isIdKey (k : String) : Bool := k = "request_id" || k = "requestId"

/-- serde-derive field loop for `Request`: the id slot is fed by either
spelling of the correlation-id field, so a second occurrence of either
spelling is a duplicate-field error; the `content` slot captures the raw
subtree as a `serde_json::Value`. -/
def decodeRequestFields : List (String × Json) → Option String → Option Json →
    Except Unit Request
  | [], some id, some c => .ok ⟨id, c⟩
  | [], _, _ => .error ()
  | (k, v) :: rest, id, c =>
    if isIdKey k then
      match id with
      | some _ => .error ()
      | none =>
        match decodeString v with
        | .ok s => decodeRequestFields rest (some s) c
        | .error _ => .error ()
    else if k = "content" then
      match c with
      | some _ => .error ()
      | none => decodeRequestFields rest id (some (toValue v))
    else decodeRequestFields rest id c

/-- serde decode of `Request` from a JSON value. -/
def decodeRequest : Json → Except Unit Request
  | .obj ms => decodeRequestFields ms none none
  | _ => .error ()

/-- `Request::from_str` (`serde_json::from_str::<Request>`). -/
def Request.from_str (s : String) : Except Unit Request :=
  match parseJson s with
  | some v => decodeRequest v
  | none => .error ()

/-- `MTBFileWithConsent::from_str` (`serde_json::from_str`). -/
def MTBFileWithConsent.from_str (s : String) : Except Unit MTBFileWithConsent :=
  match parseJson s with
  | some v => decodeMTBFile v
  | none => .error ()

/-- `MTBFileWithConsent::has_consent`: the consent status is `Active`. -/
def MTBFileWithConsent.has_consent (m : MTBFileWithConsent) : Bool :=
  m.consent.status = Status.Active

/-- `MTBFileWithConsent::patient_id`. -/
def MTBFileWithConsent.patient_id (m : MTBFileWithConsent) : String :=
  m.consent.patient

/-- `Request::content_string`: `self.content.to_string()`. -/
def Request.content_string (r : Request) : String :=
  r.content.toCompactString

/-- `Request::has_consent`: re-decode the serialized content, `false` when
the content does not decode. -/
def Request.has_consent (r : Request) : Bool :=
  match MTBFileWithConsent.from_str r.content_string with
  | .ok mtbfile => mtbfile.has_consent
  | .error _ => false

/-- `Request::patient_id`: re-decode the serialized content, empty string
when the content does not decode. -/
def Request.patient_id (r : Request) : String :=
  match MTBFileWithConsent.from_str r.content_string with
  | .ok mtbfile => mtbfile.patient_id
  | .error _ => ""

/-- `Request::can_parse`: the envelope decodes and its content re-decodes
into an `MTBFileWithConsent`. -/
def Request.can_parse (s : String) : Bool :=
  match Request.from_str s with
  | .ok request => (MTBFileWithConsent.from_str request.content_string).isOk
  | .error _ => false

example : Request.can_parse
    "\x7b\"request_id\":\"r1\",\"content\":\x7b\"consent\":\x7b\"id\":\"I\",\"patient\":\"p1\",\"status\":\"active\"\x7d\x7d\x7d" = true := rfl
example : Request.can_parse
    "\x7b\"requestId\":\"r1\",\"content\":\x7b\"consent\":\x7b\"patient\":\"p1\",\"status\":\"bad\"\x7d\x7d\x7d" = false := rfl
example : Request.can_parse "\x7b\"requestId\":\"r1\"\x7d" = false := rfl

/-- `AppError` from `main.rs`. -/
inductive AppError where
  | ConnectionError (s : String)
  | MissingConfig (s : String)
  | HttpError (s : String)
deriving Repr, DecidableEq

/-- `HttpResponse` from `bwhc_client.rs`. -/
structure HttpResponse where
  status_code : Nat
  status_body : String
deriving Repr, DecidableEq

/-- Outcome of one attempted HTTP exchange with the downstream registry, the
environment `reqwest` reacts to: either the exchange completed with a status
code and an optional body text (`response.text()` may fail, giving `none`),
or it failed at the transport level with some error description. -/
inductive HttpExchange where
  | completed (status : Nat) (body : Option String)
  | transportError (cause : String)
deriving Repr, DecidableEq

/-- `BwhcClient::send_mtb_file`: fails with `MissingConfig` when the REST
base address is absent, maps a transport error to `HttpError`, and wraps any
completed exchange — whatever its status class — in an `HttpResponse`, with
a failed body read replaced by the empty string. -/
def BwhcClient.send_mtb_file (restUri : Option String) (exchange : HttpExchange)
    (_content : String) : Except AppError HttpResponse :=
  match restUri with
  | none => .error (.MissingConfig "APP_REST_URI")
  | some _ =>
    match exchange with
    | .transportError cause => .error (.HttpError cause)
    | .completed status body => .ok ⟨status, body.getD ""⟩

/-- `BwhcClient::send_delete`: same failure mapping as `send_mtb_file`. -/
def BwhcClient.send_delete (restUri : Option String) (exchange : HttpExchange)
    (_patient_id : String) : Except AppError HttpResponse :=
  match restUri with
  | none => .error (.MissingConfig "APP_REST_URI")
  | some _ =>
    match exchange with
    | .transportError cause => .error (.HttpError cause)
    | .completed status body => .ok ⟨status, body.getD ""⟩

/-- `KafkaResponsePayload` from `main.rs`. -/
inductive KafkaResponsePayload where
  | SuccessfulConnection (response : HttpResponse)
  | NoConnection
deriving Repr, DecidableEq

/-- Rust `str::trim`: remove whitespace from both ends. -/
def rustTrim (s : String) : String :=
  String.mk (((s.data.dropWhile Char.isWhitespace).reverse.dropWhile Char.isWhitespace).reverse)

/-- The fixed `status_body` of the `NoConnection` response in
`KafkaResponsePayload::to_payload`. -/
def noConnectionBody : Json :=
  .obj [("issues", .arr [.obj [("severity", .str "error"),
                               ("message", .str "No HTTP connection")]])]

/-- The `status_body` value for a successful connection: `{}` when the body
text is blank, the body parsed as a `serde_json::Value` when well-formed,
`{}` again when parsing fails (`unwrap_or(json!({}))`). -/
def successStatusBody (status_body : String) : Json :=
  if rustTrim status_body = "" then .obj []
  else
    match parseJson status_body with
    | some v => toValue v
    | none => .obj []

/-- `KafkaResponsePayload::to_payload`, before final serialization: the JSON
object built by the `json!` blocks in `main.rs`. -/
def KafkaResponsePayload.to_payloadJson : KafkaResponsePayload → String → Json
  | .SuccessfulConnection s, request_id =>
    .obj [("request_id", .str request_id),
          ("status_code", .num s.status_code),
          ("status_body", successStatusBody s.status_body)]
  | .NoConnection, request_id =>
    .obj [("request_id", .str request_id),
          ("status_code", .num 900),
          ("status_body", noConnectionBody)]

/-- `KafkaResponsePayload::to_payload`: the serialized response body. -/
def KafkaResponsePayload.to_payload (p : KafkaResponsePayload) (request_id : String) : String :=
  (p.to_payloadJson request_id).toCompactString

/-- One Kafka record handed to the producer: topic, key and payload, as built
by `send_kafka_response` in `main.rs` (the publish attempt itself is
fire-and-forget). -/
structure KafkaRecord where
  topic : String
  key : String
  payload : String
deriving Repr, DecidableEq

/-- `send_kafka_response`: the single record given to the producer. -/
def send_kafka_response (topic request_id key : String)
    (payload : KafkaResponsePayload) : KafkaRecord :=
  ⟨topic, key, payload.to_payload request_id⟩

/-- A downstream operation invoked by `handle_message`. -/
inductive DownstreamCall where
  | submit (content : String)
  | delete (patient_id : String)
deriving Repr, DecidableEq

/-- The ambient world `handle_message` runs in: the configured REST base
address and the behaviour of the HTTP transport for each of the two
endpoints. -/
structure DownstreamEnv where
  restUri : Option String
  mtbFileExchange : HttpExchange
  deleteExchange : HttpExchange
deriving Repr, DecidableEq

/-- `handle_message` from `main.rs`: guarded by `Request::can_parse`, decides
between `send_mtb_file` and `send_delete` on `Request::has_consent`, and
sends exactly one Kafka response whichever way the downstream call ends.
The result collects the observable effects: the downstream calls made and
the Kafka records produced. -/
def handle_message (env : DownstreamEnv) (topic key payload : String) :
    List DownstreamCall × List KafkaRecord :=
  if Request.can_parse payload then
    match Request.from_str payload with
    | .ok request =>
      if request.has_consent then
        match BwhcClient.send_mtb_file env.restUri env.mtbFileExchange
            request.content_string with
        | .ok response =>
          ([.submit request.content_string],
           [send_kafka_response topic request.request_id key
              (.SuccessfulConnection response)])
        | .error _ =>
          ([.submit request.content_string],
           [send_kafka_response topic request.request_id key .NoConnection])
      else
        match BwhcClient.send_delete env.restUri env.deleteExchange
            request.patient_id with
        | .ok response =>
          ([.delete request.patient_id],
           [send_kafka_response topic request.request_id key
              (.SuccessfulConnection response)])
        | .error _ =>
          ([.delete request.patient_id],
           [send_kafka_response topic request.request_id key .NoConnection])
    | .error _ => ([], [])
  else ([], [])

example :
    (KafkaResponsePayload.NoConnection.to_payload "r1") =
    "\x7b\"request_id\":\"r1\",\"status_code\":900,\"status_body\":\x7b\"issues\":[\x7b\"severity\":\"error\",\"message\":\"No HTTP connection\"\x7d]\x7d\x7d" := rfl
example :
    (KafkaResponsePayload.SuccessfulConnection ⟨200, " "⟩).to_payload "r1" =
    "\x7b\"request_id\":\"r1\",\"status_code\":200,\"status_body\":\x7b\x7d\x7d" := rfl

/-- Field access on a JSON object value (first member with the key). -/
def Json.getField : Json → String → Option Json
  | .obj ms, k => lookupKey ms k
  | _, _ => none

/-- Whether an object member list holds a key. -/
def hasKey (ms : List (String × Json)) (k : String) : Bool :=
  (lookupKey ms k).isSome

mutual

/-- No object anywhere in the value repeats a key — the invariant of every
`serde_json::Value`, maintained by map insertion. -/
def nodupJson : Json → Bool
  | .null => true
  | .bool _ => true
  | .num _ => true
  | .str _ => true
  | .arr xs => nodupJsonList xs
  | .obj ms => nodupJsonMembers ms

/-- `nodupJson` on every element. -/
def nodupJsonList : List Json → Bool
  | [] => true
  | x :: xs => nodupJson x && nodupJsonList xs

/-- Keys pairwise distinct and all values well-formed. -/
def nodupJsonMembers : List (String × Json) → Bool
  | [] => true
  | (k, v) :: rest => !hasKey rest k && nodupJson v && nodupJsonMembers rest

end

/-- Modelled from the spec: a valid consent object — "the consent object
lacks a status or subject field, or ... status is a value other than the two
recognized literals" marks failure, and the data model gives
`subject_id: string`. -/
def consentValidSpec : Json → Bool
  | .obj cms =>
    (match lookupKey cms "patient" with
     | some (.str _) => true
     | _ => false) &&
    (match lookupKey cms "status" with
     | some (.str st) => st = "active" || st = "rejected"
     | _ => false)
  | _ => false

/-- Modelled from the spec: the payload decodes into a valid `ConsentRecord`
— a consent object present inside the content, itself valid. -/
def consentRecordValidSpec : Json → Bool
  | .obj ms =>
    match lookupKey ms "consent" with
    | some cv => consentValidSpec cv
    | none => false
  | _ => false

mutual

/-- Parser fuel consumed by one value (one unit per parser call). -/
def costV : Json → Nat
  | .null => 1
  | .bool _ => 1
  | .num _ => 1
  | .str _ => 1
  | .arr xs => 1 + costL xs
  | .obj ms => 1 + costM ms

/-- Fuel consumed by an element list. -/
def costL : List Json → Nat
  | [] => 0
  | x :: xs => 1 + costV x + costL xs

/-- Fuel consumed by a member list. -/
def costM : List (String × Json) → Nat
  | [] => 0
  | (_, v) :: ms => 1 + costV v + costM ms

end

/-- The continuation after a serialized number never begins with a digit. -/
def notDigitStart : List Char → Bool
  | [] => true
  | c :: _ => !c.isDigit

/-- Claim C5: composing a response for an unreachable downstream yields the 900
sentinel and the fixed issue body, with the request id copied verbatim,
whatever the id is; the body serializes to exactly the fixed issue-list
document. -/
theorem to_payload_unreachable_composition (id : String) :
    KafkaResponsePayload.to_payloadJson .NoConnection id =
      .obj [("request_id", .str id), ("status_code", .num 900),
            ("status_body", noConnectionBody)] ∧
    noConnectionBody.toCompactString =
      "\x7b\"issues\":[\x7b\"severity\":\"error\",\"message\":\"No HTTP connection\"\x7d]\x7d" :=
  ⟨rfl, rfl⟩

/-- Claim C4: composing a response for a completed exchange copies the id and the
downstream status code, parses a non-blank well-formed body into the
structured `status_body`, and degrades a blank or malformed body silently to
the empty object; composition is a total function. -/
theorem to_payload_success_composition (id body : String) (code : Nat) :
    (KafkaResponsePayload.to_payloadJson (.SuccessfulConnection ⟨code, body⟩) id).getField
        "request_id" = some (.str id) ∧
    (KafkaResponsePayload.to_payloadJson (.SuccessfulConnection ⟨code, body⟩) id).getField
        "status_code" = some (.num code) ∧
    (rustTrim body = "" →
      (KafkaResponsePayload.to_payloadJson (.SuccessfulConnection ⟨code, body⟩) id).getField
        "status_body" = some (.obj [])) ∧
    (rustTrim body ≠ "" → parseJson body = none →
      (KafkaResponsePayload.to_payloadJson (.SuccessfulConnection ⟨code, body⟩) id).getField
        "status_body" = some (.obj [])) ∧
    (∀ v, rustTrim body ≠ "" → parseJson body = some v →
      (KafkaResponsePayload.to_payloadJson (.SuccessfulConnection ⟨code, body⟩) id).getField
        "status_body" = some (toValue v)) := by
  refine ⟨rfl, rfl, ?_, ?_, ?_⟩
  · intro h
    show some (successStatusBody body) = _
    rw [successStatusBody, if_pos h]
  · intro h hp
    show some (successStatusBody body) = _
    rw [successStatusBody, if_neg h, hp]
  · intro v h hp
    show some (successStatusBody body) = _
    rw [successStatusBody, if_neg h, hp]

/-- Closed instance of C4 at a whitespace-only body. -/
theorem to_payload_success_composition_witness :
    rustTrim " " = "" ∧
    (KafkaResponsePayload.to_payloadJson (.SuccessfulConnection ⟨200, " "⟩) "r1").getField
      "status_body" = some (.obj []) :=
  ⟨rfl, (to_payload_success_composition "r1" " " 200).2.2.1 rfl⟩

/-- Claim C10: when a request's content does not re-decode into an
`MTBFileWithConsent`, the `patient_id` accessor degrades to the empty string
and `has_consent` to `false` — outside the `can_parse` guard such a request
would take the delete path with an empty subject identifier. -/
theorem undecodable_content_accessors (r : Request)
    (h : MTBFileWithConsent.from_str r.content_string = .error ()) :
    r.patient_id = "" ∧ r.has_consent = false := by
  rw [Request.patient_id, Request.has_consent, h]
  exact ⟨rfl, rfl⟩

/-- Closed instance of C10 at a request whose content is the empty object. -/
theorem undecodable_content_accessors_witness :
    MTBFileWithConsent.from_str (Request.content_string ⟨"r1", .obj []⟩) = .error () ∧
    (Request.patient_id ⟨"r1", .obj []⟩ = "" ∧ Request.has_consent ⟨"r1", .obj []⟩ = false) :=
  ⟨rfl, undecodable_content_accessors ⟨"r1", .obj []⟩ rfl⟩

/-- Claim C8 counterexample: a document carrying both accepted spellings of the
correlation-id field does not parse at all — serde reports a duplicate
field — contradicting "parsing succeeds and the first recognized field
wins". -/
theorem both_id_spellings_parse_fails :
    Request.from_str
      "\x7b\"request_id\":\"a\",\"requestId\":\"b\",\"content\":\x7b\"consent\":\x7b\"patient\":\"p\",\"status\":\"active\"\x7d\x7d\x7d"
      = .error () ∧
    Request.can_parse
      "\x7b\"request_id\":\"a\",\"requestId\":\"b\",\"content\":\x7b\"consent\":\x7b\"patient\":\"p\",\"status\":\"active\"\x7d\x7d\x7d"
      = false :=
  ⟨rfl, rfl⟩

/-- Claim C9 counterexample: a document whose correlation-id field holds the empty
string decodes into a perfectly valid, dispatch-eligible `Request` with an
empty `request_id`, contradicting "non-empty after decode". -/
theorem empty_request_id_accepted :
    Request.from_str
      "\x7b\"request_id\":\"\",\"content\":\x7b\"consent\":\x7b\"patient\":\"p\",\"status\":\"active\"\x7d\x7d\x7d"
      = .ok ⟨"", .obj [("consent", .obj [("patient", .str "p"), ("status", .str "active")])]⟩ ∧
    Request.can_parse
      "\x7b\"request_id\":\"\",\"content\":\x7b\"consent\":\x7b\"patient\":\"p\",\"status\":\"active\"\x7d\x7d\x7d"
      = true :=
  ⟨rfl, rfl⟩

/-- Claim C9 amended: the decoded `request_id` is exactly the string found in the
document — any string, the empty one included; no emptiness check is
applied. -/
theorem request_id_decoded_verbatim (s : String) (id : String) (content : Json)
    (hp : parseJson s = some (.obj [("request_id", .str id), ("content", content)])) :
    Request.from_str s = .ok ⟨id, toValue content⟩ := by
  rw [Request.from_str, hp]
  rfl

/-- Closed instance of the amended C9 at an empty correlation id. -/
theorem request_id_decoded_verbatim_witness :
    parseJson "\x7b\"request_id\":\"\",\"content\":null\x7d" =
      some (.obj [("request_id", .str ""), ("content", .null)]) ∧
    Request.from_str "\x7b\"request_id\":\"\",\"content\":null\x7d" = .ok ⟨"", .null⟩ :=
  ⟨rfl, request_id_decoded_verbatim _ "" .null rfl⟩

/-- Once the id slot is filled, any further recognized correlation-id key is
a duplicate-field error; with an empty slot, two such keys are. -/
theorem decodeRequestFields_dup (ms : List (String × Json)) :
    ∀ (idOpt : Option String) (c : Option Json),
      (if idOpt.isSome then 1 else 2) ≤ (ms.filter (fun kv => isIdKey kv.1)).length →
      decodeRequestFields ms idOpt c = .error () := by
  induction ms with
  | nil => intro idOpt c h; cases idOpt <;> simp at h
  | cons kv rest ih =>
    intro idOpt c h
    obtain ⟨k, v⟩ := kv
    simp only [decodeRequestFields]
    by_cases hk : isIdKey k
    · rw [if_pos hk]
      cases idOpt with
      | some idv => rfl
      | none =>
        cases hdv : decodeString v with
        | error e => rfl
        | ok sv =>
          apply ih (some sv) c
          have : 2 ≤ (((k, v) :: rest).filter (fun kv : String × Json => isIdKey kv.1)).length := by
            simpa using h
          simp only [List.filter_cons, hk] at this
          simpa using Nat.le_of_succ_le_succ this
    · rw [if_neg hk]
      have hrest : (if idOpt.isSome then 1 else 2) ≤
          (rest.filter (fun kv => isIdKey kv.1)).length := by
        simpa [List.filter_cons, hk] using h
      by_cases hc : k = "content"
      · rw [if_pos hc]
        cases c with
        | some cv => rfl
        | none => exact ih idOpt _ hrest
      · rw [if_neg hc]
        exact ih idOpt c hrest

/-- Claim C8 amended: when a document's top object carries the correlation id under
both accepted spellings (or any two recognized occurrences), decoding fails
with a duplicate-field error — no `Request` is produced, so the message is
never dispatched. -/
theorem duplicate_id_spelling_rejected (s : String) (ms : List (String × Json))
    (hp : parseJson s = some (.obj ms))
    (h2 : 2 ≤ (ms.filter (fun kv => isIdKey kv.1)).length) :
    Request.from_str s = .error () := by
  rw [Request.from_str, hp]
  exact decodeRequestFields_dup ms none none (by simpa using h2)

/-- Closed instance of the amended C8 at a document with both spellings. -/
theorem duplicate_id_spelling_rejected_witness :
    parseJson "\x7b\"requestId\":\"a\",\"request_id\":\"b\",\"content\":null\x7d" =
      some (.obj [("requestId", .str "a"), ("request_id", .str "b"), ("content", .null)]) ∧
    Request.from_str "\x7b\"requestId\":\"a\",\"request_id\":\"b\",\"content\":null\x7d" =
      .error () :=
  ⟨rfl, duplicate_id_spelling_rejected _ _ rfl (by decide)⟩

/-- A request whose content decoded is dispatch-eligible. -/
theorem can_parse_of_ok (payload : String) (req : Request) (m : MTBFileWithConsent)
    (hreq : Request.from_str payload = .ok req)
    (hm : MTBFileWithConsent.from_str req.content_string = .ok m) :
    Request.can_parse payload = true := by
  rw [Request.can_parse, hreq]
  show (MTBFileWithConsent.from_str req.content_string).isOk = true
  rw [hm]
  rfl

/-- Claim C1: for a message that parses into a `Request` with a valid consent
record, an `Active` status invokes exactly `send_mtb_file` once (never
`send_delete`), a `Rejected` status invokes exactly `send_delete` once on
the consent's patient (never `send_mtb_file`); the choice is a function of
the consent status alone. -/
theorem handle_message_dispatch_by_consent_status
    (env : DownstreamEnv) (topic key payload : String) (req : Request)
    (m : MTBFileWithConsent)
    (hreq : Request.from_str payload = .ok req)
    (hm : MTBFileWithConsent.from_str req.content_string = .ok m) :
    (m.consent.status = .Active →
      (handle_message env topic key payload).1 = [.submit req.content_string]) ∧
    (m.consent.status = .Rejected →
      (handle_message env topic key payload).1 = [.delete m.consent.patient]) := by
  have hcp := can_parse_of_ok payload req m hreq hm
  have hhc : req.has_consent = m.has_consent := by
    rw [Request.has_consent, hm]
  have hpid : req.patient_id = m.consent.patient := by
    rw [Request.patient_id, hm]; rfl
  constructor
  · intro hst
    have hc : req.has_consent = true := by
      rw [hhc, MTBFileWithConsent.has_consent, hst]; rfl
    cases hsend : BwhcClient.send_mtb_file env.restUri env.mtbFileExchange
        req.content_string <;>
      simp [handle_message, hcp, hreq, hc, hsend]
  · intro hst
    have hc : req.has_consent = false := by
      rw [hhc, MTBFileWithConsent.has_consent, hst]; rfl
    rw [← hpid]
    cases hsend : BwhcClient.send_delete env.restUri env.deleteExchange
        req.patient_id <;>
      simp [handle_message, hcp, hreq, hc, hsend]

/-- Closed instance of C1: an active-consent message submits its content. -/
theorem handle_message_dispatch_by_consent_status_witness :
    (handle_message ⟨some "u", .completed 200 (some ""), .completed 200 (some "")⟩ "t" "k"
        "\x7b\"requestId\":\"r1\",\"content\":\x7b\"consent\":\x7b\"patient\":\"p1\",\"status\":\"active\"\x7d\x7d\x7d").1 =
      [.submit "\x7b\"consent\":\x7b\"patient\":\"p1\",\"status\":\"active\"\x7d\x7d"] :=
  (handle_message_dispatch_by_consent_status _ "t" "k"
      "\x7b\"requestId\":\"r1\",\"content\":\x7b\"consent\":\x7b\"patient\":\"p1\",\"status\":\"active\"\x7d\x7d\x7d"
      ⟨"r1", .obj [("consent", .obj [("patient", .str "p1"), ("status", .str "active")])]⟩
      ⟨⟨.Active, "p1"⟩⟩ rfl rfl).1 rfl

/-- Claim C3: a dispatch-eligible message produces exactly one Kafka response
record whatever the downstream outcome; a message that is not
dispatch-eligible produces none. -/
theorem handle_message_one_response_iff_parsed
    (env : DownstreamEnv) (topic key payload : String) :
    (Request.can_parse payload = true →
      ((handle_message env topic key payload).2).length = 1) ∧
    (Request.can_parse payload = false →
      (handle_message env topic key payload).2 = []) := by
  constructor
  · intro h
    cases hreq : Request.from_str payload with
    | error e => rw [Request.can_parse, hreq] at h; exact absurd h (by simp)
    | ok req =>
      cases hc : req.has_consent
      · cases hsend : BwhcClient.send_delete env.restUri env.deleteExchange
            req.patient_id <;>
          simp [handle_message, h, hreq, hc, hsend]
      · cases hsend : BwhcClient.send_mtb_file env.restUri env.mtbFileExchange
            req.content_string <;>
          simp [handle_message, h, hreq, hc, hsend]
  · intro h
    simp [handle_message, h]

/-- Closed instance of C3: one response for an eligible message even when
the downstream transport fails. -/
theorem handle_message_one_response_iff_parsed_witness :
    Request.can_parse
      "\x7b\"requestId\":\"r1\",\"content\":\x7b\"consent\":\x7b\"patient\":\"p1\",\"status\":\"active\"\x7d\x7d\x7d" = true ∧
    ((handle_message ⟨some "u", .transportError "timeout", .transportError "timeout"⟩ "t" "k"
        "\x7b\"requestId\":\"r1\",\"content\":\x7b\"consent\":\x7b\"patient\":\"p1\",\"status\":\"active\"\x7d\x7d\x7d").2).length = 1 :=
  ⟨rfl, (handle_message_one_response_iff_parsed _ "t" "k" _).1 rfl⟩

/-- Claim C6: under a configured base address, a transport-level failure of the
downstream exchange — whatever its cause — yields the `NoConnection`
response, and a completed exchange with any status code, error classes
included, yields the `SuccessfulConnection` response carrying that code
(a failed body read degrading to the empty string). -/
theorem dispatch_outcome_mapping
    (env : DownstreamEnv) (e : HttpExchange) (topic key payload uri : String)
    (req : Request)
    (hreq : Request.from_str payload = .ok req)
    (hok : (MTBFileWithConsent.from_str req.content_string).isOk = true)
    (hu : env.restUri = some uri)
    (h1 : env.mtbFileExchange = e) (h2 : env.deleteExchange = e) :
    (∀ cause, e = .transportError cause →
      (handle_message env topic key payload).2 =
        [⟨topic, key, KafkaResponsePayload.NoConnection.to_payload req.request_id⟩]) ∧
    (∀ code b, e = .completed code b →
      (handle_message env topic key payload).2 =
        [⟨topic, key,
          (KafkaResponsePayload.SuccessfulConnection ⟨code, b.getD ""⟩).to_payload
            req.request_id⟩]) := by
  have hcp : Request.can_parse payload = true := by
    rw [Request.can_parse, hreq]
    show (MTBFileWithConsent.from_str req.content_string).isOk = true
    exact hok
  constructor
  · intro cause hce
    cases hc : req.has_consent <;>
      simp [handle_message, hcp, hreq, hc, BwhcClient.send_mtb_file,
        BwhcClient.send_delete, hu, h1, h2, hce, send_kafka_response]
  · intro code b hce
    cases hc : req.has_consent <;>
      simp [handle_message, hcp, hreq, hc, BwhcClient.send_mtb_file,
        BwhcClient.send_delete, hu, h1, h2, hce, send_kafka_response]

/-- Closed instance of C6: a downstream timeout maps to the `NoConnection`
response with its cause discarded. -/
theorem dispatch_outcome_mapping_witness :
    (handle_message ⟨some "u", .transportError "timeout", .transportError "timeout"⟩ "t" "k"
        "\x7b\"requestId\":\"r1\",\"content\":\x7b\"consent\":\x7b\"patient\":\"p1\",\"status\":\"active\"\x7d\x7d\x7d").2 =
      [⟨"t", "k", KafkaResponsePayload.NoConnection.to_payload "r1"⟩] :=
  (dispatch_outcome_mapping _ (.transportError "timeout") "t" "k"
      "\x7b\"requestId\":\"r1\",\"content\":\x7b\"consent\":\x7b\"patient\":\"p1\",\"status\":\"active\"\x7d\x7d\x7d" "u"
      ⟨"r1", .obj [("consent", .obj [("patient", .str "p1"), ("status", .str "active")])]⟩
      rfl rfl rfl rfl rfl).1 "timeout" rfl

/-- Rebuilding a string from its characters is the identity. -/
theorem stringMk_data (s : String) : String.mk s.data = s := rfl

/-- `skipWs` is the identity on input not led by whitespace. -/
theorem skipWs_cons_of_not_ws (c : Char) (l : List Char) (h : isJsonWs c = false) :
    skipWs (c :: l) = c :: l := by
  simp [skipWs, h]

/-- A digit character is not any given non-digit character. -/
theorem not_digit_ne (c L : Char) (h : c.isDigit = true) (hL : L.isDigit = false) :
    (c = L) = False :=
  eq_false fun hc => by rw [hc] at h; exact Bool.noConfusion (hL.symm.trans h)

/-- A digit character is not whitespace. -/
theorem isDigit_not_ws (c : Char) (h : c.isDigit = true) : isJsonWs c = false := by
  simp [isJsonWs, not_digit_ne c ' ' h (by decide), not_digit_ne c '\t' h (by decide),
    not_digit_ne c '\n' h (by decide), not_digit_ne c '\r' h (by decide)]

/-- The decimal digit characters are digits with the expected code points. -/
theorem digitCh_spec (d : Nat) (h : d < 10) :
    (digitCh d).isDigit = true ∧ (digitCh d).toNat = 48 + d := by
  interval_cases d <;> exact ⟨rfl, rfl⟩

/-- Within its fuel, the decimal printer emits a non-empty run of digits. -/
theorem natCharsF_digits (fuel : Nat) :
    ∀ m, m < fuel → natCharsF fuel m ≠ [] ∧ ∀ c ∈ natCharsF fuel m, c.isDigit = true := by
  induction fuel with
  | zero => intro m hm; omega
  | succ f ih =>
    intro m hm
    rw [natCharsF]
    by_cases h10 : m < 10
    · rw [if_pos h10]
      refine ⟨by simp, ?_⟩
      intro c hc
      rw [List.mem_singleton] at hc
      rw [hc]
      exact (digitCh_spec m h10).1
    · rw [if_neg h10]
      have hdiv : m / 10 < f := by
        have h1 : m / 10 < m := Nat.div_lt_self (by omega) (by omega)
        omega
      refine ⟨by simp, ?_⟩
      intro c hc
      rw [List.mem_append] at hc
      rcases hc with hc | hc
      · exact (ih (m / 10) hdiv).2 c hc
      · rw [List.mem_singleton] at hc
        rw [hc]
        exact (digitCh_spec (m % 10) (Nat.mod_lt m (by omega))).1

/-- The decimal printout of a natural number: non-empty, all digits. -/
theorem natChars_digits (n : Nat) :
    natChars n ≠ [] ∧ ∀ c ∈ natChars n, c.isDigit = true :=
  natCharsF_digits (n + 1) n (by omega)

/-- Reading a run of digits after an accumulated prefix. -/
theorem digitsToNat_append_digit (l : List Char) (c : Char) :
    digitsToNat (l ++ [c]) = digitsToNat l * 10 + (c.toNat - 48) := by
  rw [digitsToNat, digitsToNat, List.foldl_append]
  rfl

/-- The decimal printer and the digit reader are mutually inverse. -/
theorem digitsToNat_natCharsF (fuel : Nat) :
    ∀ m, m < fuel → digitsToNat (natCharsF fuel m) = m := by
  induction fuel with
  | zero => intro m hm; omega
  | succ f ih =>
    intro m hm
    rw [natCharsF]
    by_cases h10 : m < 10
    · rw [if_pos h10]
      have := (digitCh_spec m h10).2
      simp [digitsToNat, this]
    · rw [if_neg h10]
      have hdiv : m / 10 < f := by
        have h1 : m / 10 < m := Nat.div_lt_self (by omega) (by omega)
        omega
      rw [digitsToNat_append_digit, ih (m / 10) hdiv,
        (digitCh_spec (m % 10) (Nat.mod_lt m (by omega))).2]
      omega

/-- `digitsToNat` inverts `natChars`. -/
theorem digitsToNat_natChars (n : Nat) : digitsToNat (natChars n) = n :=
  digitsToNat_natCharsF (n + 1) n (by omega)

/-- `takeDigits` splits a run of digits exactly at a non-digit continuation. -/
theorem takeDigits_append (ds rest : List Char) (hds : ∀ c ∈ ds, c.isDigit = true)
    (hrest : notDigitStart rest = true) : takeDigits (ds ++ rest) = (ds, rest) := by
  induction ds with
  | nil =>
    cases rest with
    | nil => rfl
    | cons c r =>
      have : c.isDigit = false := by simpa [notDigitStart] using hrest
      simp [takeDigits, this]
  | cons d ds' ih =>
    have hd : d.isDigit = true := hds d (by simp)
    rw [List.cons_append, takeDigits, if_pos hd,
      ih fun c hc => hds c (by simp [hc])]

/-- The string serializer and the string-body parser are mutually inverse. -/
theorem parseStringBody_escList (l rest : List Char) :
    parseStringBody (escList l ++ '"' :: rest) = some (l, rest) := by
  induction l with
  | nil =>
    rw [escList, List.nil_append, parseStringBody.eq_def]
    simp
  | cons c l' ih =>
    rw [escList]
    by_cases h : (c = '"' || c = '\\' : Bool)
    · have hesc : escChar c = ['\\', c] := by rw [escChar, if_pos h]
      have hu : unescapeChar c = some c := by
        rcases Bool.or_eq_true_iff.mp h with hc | hc
        · rw [of_decide_eq_true hc]; rfl
        · rw [of_decide_eq_true hc]; rfl
      rw [hesc, List.append_assoc, parseStringBody.eq_def]
      simp [hu, ih]
    · have hesc : escChar c = [c] := by rw [escChar, if_neg h]
      have hq : ¬(c = '"') := fun hc => h (by rw [hc]; decide)
      have hbs : ¬(c = '\\') := fun hc => h (by rw [hc]; decide)
      rw [hesc, List.append_assoc, parseStringBody.eq_def]
      simp [hq, hbs, ih]

/-- Parser step on a `null` literal. -/
theorem parseValue_null_head (f : Nat) (T : List Char) :
    parseValue (f + 1) ('n' :: 'u' :: 'l' :: 'l' :: T) = some (.null, T) := by
  have hws : skipWs ('n' :: 'u' :: 'l' :: 'l' :: T) = 'n' :: 'u' :: 'l' :: 'l' :: T :=
    skipWs_cons_of_not_ws _ _ (by decide)
  rw [parseValue.eq_def]
  simp [hws]

/-- Parser step on a `true` literal. -/
theorem parseValue_true_head (f : Nat) (T : List Char) :
    parseValue (f + 1) ('t' :: 'r' :: 'u' :: 'e' :: T) = some (.bool true, T) := by
  have hws : skipWs ('t' :: 'r' :: 'u' :: 'e' :: T) = 't' :: 'r' :: 'u' :: 'e' :: T :=
    skipWs_cons_of_not_ws _ _ (by decide)
  rw [parseValue.eq_def]
  simp [hws]

/-- Parser step on a `false` literal. -/
theorem parseValue_false_head (f : Nat) (T : List Char) :
    parseValue (f + 1) ('f' :: 'a' :: 'l' :: 's' :: 'e' :: T) = some (.bool false, T) := by
  have hws : skipWs ('f' :: 'a' :: 'l' :: 's' :: 'e' :: T) = 'f' :: 'a' :: 'l' :: 's' :: 'e' :: T :=
    skipWs_cons_of_not_ws _ _ (by decide)
  rw [parseValue.eq_def]
  simp [hws]

/-- Parser step on an opening quote. -/
theorem parseValue_quote_head (f : Nat) (T : List Char) :
    parseValue (f + 1) ('"' :: T) =
      (match parseStringBody T with
       | some (l, r) => some (.str (String.mk l), r)
       | none => none) := by
  have hws : skipWs ('"' :: T) = '"' :: T := skipWs_cons_of_not_ws _ _ (by decide)
  rw [parseValue.eq_def]
  simp [hws]

/-- Parser step on a minus sign. -/
theorem parseValue_minus_head (f : Nat) (T : List Char) :
    parseValue (f + 1) ('-' :: T) =
      (match takeDigits T with
       | ([], _) => none
       | (ds, r) => some (.num (-(digitsToNat ds : Int)), r)) := by
  have hws : skipWs ('-' :: T) = '-' :: T := skipWs_cons_of_not_ws _ _ (by decide)
  rw [parseValue.eq_def]
  simp [hws]

/-- Parser step on an opening bracket. -/
theorem parseValue_lbrack_head (f : Nat) (T : List Char) :
    parseValue (f + 1) ('[' :: T) =
      (match skipWs T with
       | c2 :: r2 =>
         if c2 = ']' then some (.arr [], r2)
         else
           (match parseElems f T with
            | some (xs, r) => some (.arr xs, r)
            | none => none)
       | [] => none) := by
  have hws : skipWs ('[' :: T) = '[' :: T := skipWs_cons_of_not_ws _ _ (by decide)
  rw [parseValue.eq_def]
  simp [hws]

/-- Parser step on an opening brace. -/
theorem parseValue_lbrace_head (f : Nat) (T : List Char) :
    parseValue (f + 1) (lbrace :: T) =
      (match skipWs T with
       | c2 :: r2 =>
         if c2 = rbrace then some (.obj [], r2)
         else
           (match parseMembers f T with
            | some (ms, r) => some (.obj ms, r)
            | none => none)
       | [] => none) := by
  have hws : skipWs (lbrace :: T) = lbrace :: T := skipWs_cons_of_not_ws _ _ (by decide)
  have e1 : (lbrace = 'n') = False := eq_false (by decide)
  have e2 : (lbrace = 't') = False := eq_false (by decide)
  have e3 : (lbrace = 'f') = False := eq_false (by decide)
  have e4 : (lbrace = '"') = False := eq_false (by decide)
  have e5 : (lbrace = '-') = False := eq_false (by decide)
  have e6 : (lbrace = '[') = False := eq_false (by decide)
  rw [parseValue.eq_def]
  simp [hws, e1, e2, e3, e4, e5, e6]

/-- Parser step on a leading digit. -/
theorem parseValue_digit_head (f : Nat) (c : Char) (T : List Char)
    (h : c.isDigit = true) :
    parseValue (f + 1) (c :: T) =
      (match takeDigits (c :: T) with
       | ([], _) => none
       | (ds, r) => some (.num (digitsToNat ds : Int), r)) := by
  have hn := not_digit_ne c 'n' h (by decide)
  have ht := not_digit_ne c 't' h (by decide)
  have hf := not_digit_ne c 'f' h (by decide)
  have hq := not_digit_ne c '"' h (by decide)
  have hm := not_digit_ne c '-' h (by decide)
  have hbk := not_digit_ne c '[' h (by decide)
  have hbc := not_digit_ne c lbrace h (by decide)
  have hws : skipWs (c :: T) = c :: T := skipWs_cons_of_not_ws _ _ (isDigit_not_ws c h)
  rw [parseValue.eq_def]
  simp [hws, hn, ht, hf, hq, hm, hbk, hbc, h]

/-- A parsing step of the element loop within its fuel. -/
theorem parseElems_succ (f : Nat) (cs : List Char) :
    parseElems (f + 1) cs =
      (match parseValue f cs with
       | some (v, rest) =>
         (match skipWs rest with
          | c :: r =>
            if c = ',' then
              (match parseElems f r with
               | some (xs, r2) => some (v :: xs, r2)
               | none => none)
            else if c = ']' then some ([v], r)
            else none
          | [] => none)
       | none => none) := by
  rw [parseElems.eq_def]

/-- A parsing step of the member loop within its fuel. -/
theorem parseMembers_succ (f : Nat) (cs : List Char) :
    parseMembers (f + 1) cs =
      (match skipWs cs with
       | c :: rest =>
         if c = '"' then
           (match parseStringBody rest with
            | some (kl, r1) =>
              (match skipWs r1 with
               | c2 :: r2 =>
                 if c2 = ':' then
                   (match parseValue f r2 with
                    | some (v, r3) =>
                      (match skipWs r3 with
                       | c3 :: r4 =>
                         if c3 = ',' then
                           (match parseMembers f r4 with
                            | some (ms, r5) => some ((String.mk kl, v) :: ms, r5)
                            | none => none)
                         else if c3 = rbrace then some ([(String.mk kl, v)], r4)
                         else none
                       | [] => none)
                    | none => none)
                 else none
               | [] => none)
            | none => none)
         else none
       | [] => none) := by
  rw [parseMembers.eq_def]

/-- Every serialized value begins with a character that is neither
whitespace nor a structural closer. -/
theorem serValue_head (v : Json) :
    ∃ c0 l0, serValue v = c0 :: l0 ∧ isJsonWs c0 = false ∧
      ¬(c0 = ']') ∧ ¬(c0 = rbrace) := by
  cases v with
  | null => exact ⟨'n', ['u', 'l', 'l'], by simp only [serValue], by decide, by decide, by decide⟩
  | bool b =>
    cases b with
    | true =>
      exact ⟨'t', ['r', 'u', 'e'], by simp only [serValue], by decide, by decide, by decide⟩
    | false =>
      exact ⟨'f', ['a', 'l', 's', 'e'], by simp only [serValue], by decide, by decide, by decide⟩
  | num n =>
    by_cases hneg : n < 0
    · exact ⟨'-', natChars n.natAbs,
        by simp only [serValue]; rw [intChars, if_pos hneg],
        by decide, by decide, by decide⟩
    · cases hnc : natChars n.toNat with
      | nil => exact absurd hnc (natChars_digits n.toNat).1
      | cons c0 tl =>
        have hd : c0.isDigit = true :=
          (natChars_digits n.toNat).2 c0 (by rw [hnc]; exact List.mem_cons_self c0 tl)
        exact ⟨c0, tl,
          by simp only [serValue]; rw [intChars, if_neg hneg, hnc],
          isDigit_not_ws c0 hd,
          fun hc => absurd hd (by rw [hc]; decide),
          fun hc => absurd hd (by rw [hc]; decide)⟩
  | str s =>
    exact ⟨'"', escList s.data ++ ['"'], by simp only [serValue], by decide, by decide, by decide⟩
  | arr xs =>
    exact ⟨'[', serElems xs ++ [']'], by simp only [serValue], by decide, by decide, by decide⟩
  | obj ms =>
    exact ⟨lbrace, serMembers ms ++ [rbrace], by simp only [serValue], by decide, by decide,
      by decide⟩

/-- A non-empty serialized element list begins like its first value. -/
theorem serElems_head (x : Json) (xs : List Json) :
    ∃ c0 l0, serElems (x :: xs) = c0 :: l0 ∧ isJsonWs c0 = false ∧ ¬(c0 = ']') := by
  obtain ⟨c0, l0, hs, hws, hbr, _⟩ := serValue_head x
  cases xs with
  | nil => exact ⟨c0, l0, by simp only [serElems]; exact hs, hws, hbr⟩
  | cons y ys =>
    exact ⟨c0, l0 ++ ',' :: serElems (y :: ys),
      by simp only [serElems]; rw [hs]; rfl, hws, hbr⟩

/-- A non-empty serialized member list begins with a quote. -/
theorem serMembers_head (kv : String × Json) (ms : List (String × Json)) :
    ∃ t, serMembers (kv :: ms) = '"' :: t := by
  obtain ⟨k, v⟩ := kv
  cases ms with
  | nil => exact ⟨escList k.data ++ '"' :: ':' :: serValue v, by simp only [serMembers]⟩
  | cons m' ms' => exact ⟨_, by simp only [serMembers]; rfl⟩

/-- Every value costs at least one unit of parser fuel. -/
theorem costV_pos (v : Json) : 1 ≤ costV v := by
  cases v <;> simp [costV]

/-- Roundtrip for serialized numbers, given a non-digit continuation. -/
theorem parseValue_num_ser (n : Int) (f : Nat) (rest : List Char)
    (hrest : notDigitStart rest = true) :
    parseValue (f + 1) (serValue (.num n) ++ rest) = some (.num n, rest) := by
  have hser : serValue (.num n) = intChars n := by simp only [serValue]
  by_cases hneg : n < 0
  · rw [hser, intChars, if_pos hneg, List.cons_append, parseValue_minus_head]
    rw [takeDigits_append _ _ (natChars_digits n.natAbs).2 hrest]
    cases hnc : natChars n.natAbs with
    | nil => exact absurd hnc (natChars_digits n.natAbs).1
    | cons c0 tl =>
      show some (Json.num (-(digitsToNat (c0 :: tl) : Int)), rest) = some (.num n, rest)
      rw [← hnc, digitsToNat_natChars]
      have hn : -((n.natAbs : Nat) : Int) = n := by omega
      rw [hn]
  · rw [hser, intChars, if_neg hneg]
    cases hnc : natChars n.toNat with
    | nil => exact absurd hnc (natChars_digits n.toNat).1
    | cons c0 tl =>
      have hd : c0.isDigit = true :=
        (natChars_digits n.toNat).2 c0 (by rw [hnc]; exact List.mem_cons_self c0 tl)
      rw [List.cons_append, parseValue_digit_head f c0 _ hd,
        show c0 :: (tl ++ rest) = (c0 :: tl) ++ rest from rfl,
        takeDigits_append _ _ (by rw [← hnc]; exact (natChars_digits n.toNat).2) hrest]
      show some (Json.num ((digitsToNat (c0 :: tl) : Nat) : Int), rest) = some (.num n, rest)
      rw [← hnc, digitsToNat_natChars]
      have hn : ((n.toNat : Nat) : Int) = n := by omega
      rw [hn]

mutual

/-- Parsing a serialized value before a non-digit continuation recovers the
value exactly, whenever the fuel covers the value's cost. -/
theorem parseValue_ser : ∀ (v : Json) (fuel : Nat) (rest : List Char),
    costV v ≤ fuel → notDigitStart rest = true →
    parseValue fuel (serValue v ++ rest) = some (v, rest)
  | .null, fuel, rest, hcost, _hrest => by
    have h1 : 1 ≤ fuel := le_trans (by simp [costV]) hcost
    obtain ⟨f, rfl⟩ : ∃ f, fuel = f + 1 := ⟨fuel - 1, by omega⟩
    have hs : serValue .null ++ rest = 'n' :: 'u' :: 'l' :: 'l' :: rest := by
      simp only [serValue]; rfl
    rw [hs]
    exact parseValue_null_head f rest
  | .bool true, fuel, rest, hcost, _hrest => by
    have h1 : 1 ≤ fuel := le_trans (by simp [costV]) hcost
    obtain ⟨f, rfl⟩ : ∃ f, fuel = f + 1 := ⟨fuel - 1, by omega⟩
    have hs : serValue (.bool true) ++ rest = 't' :: 'r' :: 'u' :: 'e' :: rest := by
      simp only [serValue]; rfl
    rw [hs]
    exact parseValue_true_head f rest
  | .bool false, fuel, rest, hcost, _hrest => by
    have h1 : 1 ≤ fuel := le_trans (by simp [costV]) hcost
    obtain ⟨f, rfl⟩ : ∃ f, fuel = f + 1 := ⟨fuel - 1, by omega⟩
    have hs : serValue (.bool false) ++ rest = 'f' :: 'a' :: 'l' :: 's' :: 'e' :: rest := by
      simp only [serValue]; rfl
    rw [hs]
    exact parseValue_false_head f rest
  | .num n, fuel, rest, hcost, hrest => by
    have h1 : 1 ≤ fuel := le_trans (by simp [costV]) hcost
    obtain ⟨f, rfl⟩ : ∃ f, fuel = f + 1 := ⟨fuel - 1, by omega⟩
    exact parseValue_num_ser n f rest hrest
  | .str s, fuel, rest, hcost, _hrest => by
    have h1 : 1 ≤ fuel := le_trans (by simp [costV]) hcost
    obtain ⟨f, rfl⟩ : ∃ f, fuel = f + 1 := ⟨fuel - 1, by omega⟩
    have hs : serValue (.str s) ++ rest = '"' :: (escList s.data ++ '"' :: rest) := by
      simp only [serValue]
      simp [List.append_assoc]
    rw [hs, parseValue_quote_head, parseStringBody_escList]
  | .arr [], fuel, rest, hcost, _hrest => by
    have h1 : 1 ≤ fuel := le_trans (by simp [costV]) hcost
    obtain ⟨f, rfl⟩ : ∃ f, fuel = f + 1 := ⟨fuel - 1, by omega⟩
    have hs : serValue (.arr []) ++ rest = '[' :: ']' :: rest := by
      simp only [serValue, serElems]; rfl
    rw [hs, parseValue_lbrack_head,
      skipWs_cons_of_not_ws _ _ (by decide : isJsonWs ']' = false)]
    simp
  | .arr (x :: xs), fuel, rest, hcost, _hrest => by
    have h1 : 1 + costL (x :: xs) ≤ fuel := le_trans (by simp [costV]) hcost
    obtain ⟨f, rfl⟩ : ∃ f, fuel = f + 1 := ⟨fuel - 1, by omega⟩
    have hs : serValue (.arr (x :: xs)) ++ rest = '[' :: (serElems (x :: xs) ++ ']' :: rest) := by
      simp only [serValue]
      simp [List.append_assoc]
    rw [hs, parseValue_lbrack_head]
    obtain ⟨c0, l0, he, hws, hbr⟩ := serElems_head x xs
    have hrec : parseElems f ((c0 :: l0) ++ ']' :: rest) = some (x :: xs, rest) := by
      rw [← he]
      exact parseElems_ser x xs f rest (by omega)
    rw [he, List.cons_append, skipWs_cons_of_not_ws _ _ hws]
    rw [List.cons_append] at hrec
    simp [hbr, hrec]
  | .obj [], fuel, rest, hcost, _hrest => by
    have h1 : 1 ≤ fuel := le_trans (by simp [costV]) hcost
    obtain ⟨f, rfl⟩ : ∃ f, fuel = f + 1 := ⟨fuel - 1, by omega⟩
    have hs : serValue (.obj []) ++ rest = lbrace :: rbrace :: rest := by
      simp only [serValue, serMembers]; rfl
    rw [hs, parseValue_lbrace_head,
      skipWs_cons_of_not_ws _ _ (by decide : isJsonWs rbrace = false)]
    simp
  | .obj (kv :: ms), fuel, rest, hcost, _hrest => by
    have h1 : 1 + costM (kv :: ms) ≤ fuel := le_trans (by simp [costV]) hcost
    obtain ⟨f, rfl⟩ : ∃ f, fuel = f + 1 := ⟨fuel - 1, by omega⟩
    have hs : serValue (.obj (kv :: ms)) ++ rest =
        lbrace :: (serMembers (kv :: ms) ++ rbrace :: rest) := by
      simp only [serValue]
      simp [List.append_assoc]
    rw [hs, parseValue_lbrace_head]
    obtain ⟨t, he⟩ := serMembers_head kv ms
    have hrec : parseMembers f (('"' :: t) ++ rbrace :: rest) = some (kv :: ms, rest) := by
      rw [← he]
      exact parseMembers_ser kv ms f rest (by omega)
    rw [he, List.cons_append, skipWs_cons_of_not_ws _ _ (by decide : isJsonWs '"' = false)]
    rw [List.cons_append] at hrec
    simp [hrec, (by decide : ¬('"' = rbrace))]
termination_by v _ _ _ _ => sizeOf v
decreasing_by all_goals simp_wf <;> omega

/-- Parsing a serialized non-empty element list, closing bracket included,
recovers the list exactly. -/
theorem parseElems_ser : ∀ (x : Json) (xs : List Json) (fuel : Nat) (rest : List Char),
    costL (x :: xs) ≤ fuel →
    parseElems fuel (serElems (x :: xs) ++ ']' :: rest) = some (x :: xs, rest)
  | x, [], fuel, rest, hcost => by
    have h1 : 1 + costV x ≤ fuel := le_trans (by simp [costL]) hcost
    obtain ⟨f, rfl⟩ : ∃ f, fuel = f + 1 := ⟨fuel - 1, by omega⟩
    have hs : serElems [x] = serValue x := by simp only [serElems]
    rw [hs, parseElems_succ]
    have hv : parseValue f (serValue x ++ ']' :: rest) = some (x, ']' :: rest) :=
      parseValue_ser x f (']' :: rest) (by omega) (by rfl)
    have hws : skipWs (']' :: rest) = ']' :: rest := skipWs_cons_of_not_ws _ _ (by decide)
    simp [hv, hws]
  | x, y :: ys, fuel, rest, hcost => by
    have h1 : 1 + costV x + costL (y :: ys) ≤ fuel := le_trans (by simp [costL]) hcost
    obtain ⟨f, rfl⟩ : ∃ f, fuel = f + 1 := ⟨fuel - 1, by omega⟩
    have hs : serElems (x :: y :: ys) ++ ']' :: rest =
        serValue x ++ (',' :: (serElems (y :: ys) ++ ']' :: rest)) := by
      simp only [serElems]
      simp [List.append_assoc]
    rw [hs, parseElems_succ]
    have hv : parseValue f (serValue x ++ ',' :: (serElems (y :: ys) ++ ']' :: rest)) =
        some (x, ',' :: (serElems (y :: ys) ++ ']' :: rest)) :=
      parseValue_ser x f _ (by omega) (by rfl)
    have hws : skipWs (',' :: (serElems (y :: ys) ++ ']' :: rest)) =
        ',' :: (serElems (y :: ys) ++ ']' :: rest) := skipWs_cons_of_not_ws _ _ (by decide)
    have hrec := parseElems_ser y ys f rest (by omega)
    simp [hv, hws, hrec]
termination_by x xs _ _ _ => 1 + sizeOf x + sizeOf xs
decreasing_by all_goals simp_wf <;> omega

/-- Parsing a serialized non-empty member list, closing brace included,
recovers the members exactly. -/
theorem parseMembers_ser :
    ∀ (kv : String × Json) (ms : List (String × Json)) (fuel : Nat) (rest : List Char),
    costM (kv :: ms) ≤ fuel →
    parseMembers fuel (serMembers (kv :: ms) ++ rbrace :: rest) = some (kv :: ms, rest)
  | (k, v), [], fuel, rest, hcost => by
    have h1 : 1 + costV v ≤ fuel := le_trans (by simp [costM]) hcost
    obtain ⟨f, rfl⟩ : ∃ f, fuel = f + 1 := ⟨fuel - 1, by omega⟩
    have hs : serMembers [(k, v)] ++ rbrace :: rest =
        '"' :: (escList k.data ++ '"' :: (':' :: (serValue v ++ rbrace :: rest))) := by
      simp only [serMembers]
      simp [List.append_assoc]
    rw [hs, parseMembers_succ,
      skipWs_cons_of_not_ws _ _ (by decide : isJsonWs '"' = false)]
    have h2 := parseStringBody_escList k.data (':' :: (serValue v ++ rbrace :: rest))
    have h3 : skipWs (':' :: (serValue v ++ rbrace :: rest)) =
        ':' :: (serValue v ++ rbrace :: rest) := skipWs_cons_of_not_ws _ _ (by decide)
    have h4 : parseValue f (serValue v ++ rbrace :: rest) = some (v, rbrace :: rest) :=
      parseValue_ser v f _ (by omega) rfl
    have h5 : skipWs (rbrace :: rest) = rbrace :: rest :=
      skipWs_cons_of_not_ws _ _ (by decide)
    simp [h2, h3, h4, h5, (by decide : ¬(rbrace = ','))]
  | (k, v), m' :: ms', fuel, rest, hcost => by
    have h1 : 1 + costV v + costM (m' :: ms') ≤ fuel := le_trans (by simp [costM]) hcost
    obtain ⟨f, rfl⟩ : ∃ f, fuel = f + 1 := ⟨fuel - 1, by omega⟩
    have hs : serMembers ((k, v) :: m' :: ms') ++ rbrace :: rest =
        '"' :: (escList k.data ++ '"' ::
          (':' :: (serValue v ++ ',' :: (serMembers (m' :: ms') ++ rbrace :: rest)))) := by
      simp only [serMembers]
      simp [List.append_assoc]
    rw [hs, parseMembers_succ,
      skipWs_cons_of_not_ws _ _ (by decide : isJsonWs '"' = false)]
    have h2 := parseStringBody_escList k.data
      (':' :: (serValue v ++ ',' :: (serMembers (m' :: ms') ++ rbrace :: rest)))
    have h3 : skipWs (':' :: (serValue v ++ ',' :: (serMembers (m' :: ms') ++ rbrace :: rest))) =
        ':' :: (serValue v ++ ',' :: (serMembers (m' :: ms') ++ rbrace :: rest)) :=
      skipWs_cons_of_not_ws _ _ (by decide)
    have h4 : parseValue f (serValue v ++ ',' :: (serMembers (m' :: ms') ++ rbrace :: rest)) =
        some (v, ',' :: (serMembers (m' :: ms') ++ rbrace :: rest)) :=
      parseValue_ser v f _ (by omega) rfl
    have h5 : skipWs (',' :: (serMembers (m' :: ms') ++ rbrace :: rest)) =
        ',' :: (serMembers (m' :: ms') ++ rbrace :: rest) :=
      skipWs_cons_of_not_ws _ _ (by decide)
    have h6 := parseMembers_ser m' ms' f rest (by omega)
    simp [h2, h3, h4, h5, h6]
termination_by kv ms _ _ _ => 1 + sizeOf kv + sizeOf ms
decreasing_by all_goals simp_wf <;> omega

end

mutual

/-- A value's parsing cost is covered by the length of its serialization. -/
theorem costV_le : ∀ v : Json, costV v ≤ (serValue v).length
  | .null => by simp [costV, serValue]
  | .bool true => by simp [costV, serValue]
  | .bool false => by simp [costV, serValue]
  | .num n => by
    simp only [costV, serValue]
    rw [intChars]
    by_cases hneg : n < 0
    · rw [if_pos hneg]; simp
    · rw [if_neg hneg]
      cases hnc : natChars n.toNat with
      | nil => exact absurd hnc (natChars_digits n.toNat).1
      | cons c0 tl => simp
  | .str s => by simp [costV, serValue]
  | .arr [] => by simp [costV, costL, serValue, serElems]
  | .arr (x :: xs) => by
    have h := costL_le x xs
    simp only [costV, serValue]
    simp only [List.length_cons, List.length_append, List.length_singleton]
    omega
  | .obj [] => by simp [costV, costM, serValue, serMembers]
  | .obj (kv :: ms) => by
    have h := costM_le kv ms
    simp only [costV, serValue]
    simp only [List.length_cons, List.length_append, List.length_singleton]
    omega
termination_by v => sizeOf v
decreasing_by all_goals simp_wf <;> omega

/-- An element list's cost is covered by its serialization length plus one. -/
theorem costL_le : ∀ (x : Json) (xs : List Json),
    costL (x :: xs) ≤ (serElems (x :: xs)).length + 1
  | x, [] => by
    have h := costV_le x
    simp only [costL, costL.eq_1, serElems]
    omega
  | x, y :: ys => by
    have h1 := costV_le x
    have h2 := costL_le y ys
    simp only [costL] at h2
    simp only [costL, serElems, List.length_append, List.length_cons]
    omega
termination_by x xs => 1 + sizeOf x + sizeOf xs
decreasing_by all_goals simp_wf <;> omega

/-- A member list's cost is covered by its serialization length plus one. -/
theorem costM_le : ∀ (kv : String × Json) (ms : List (String × Json)),
    costM (kv :: ms) ≤ (serMembers (kv :: ms)).length + 1
  | (k, v), [] => by
    have h := costV_le v
    simp only [costM, costM.eq_1, serMembers, List.length_cons, List.length_append]
    omega
  | (k, v), m' :: ms' => by
    have h1 := costV_le v
    have h2 := costM_le m' ms'
    simp only [costM] at h2
    simp only [costM, serMembers, List.length_cons, List.length_append]
    omega
termination_by kv ms => 1 + sizeOf kv + sizeOf ms
decreasing_by all_goals simp_wf <;> omega

end

/-- Parsing the compact serialization of any JSON value recovers it exactly. -/
theorem parseJson_toCompactString (v : Json) : parseJson v.toCompactString = some v := by
  show parseJsonList (serValue v) = some v
  have hc : costV v ≤ (serValue v).length + 1 := le_trans (costV_le v) (by omega)
  have h := parseValue_ser v ((serValue v).length + 1) [] hc (by rfl)
  rw [List.append_nil] at h
  rw [parseJsonList, h]
  simp [skipWs]

/-- Re-decoding a serialized `serde_json::Value` is deciding on the value. -/
theorem mtb_from_str_toCompactString (v : Json) :
    MTBFileWithConsent.from_str v.toCompactString = decodeMTBFile v := by
  rw [MTBFileWithConsent.from_str, parseJson_toCompactString]

/-- Claim C7 counterexample: a dispatch-eligible document with active consent whose
payload field is written with one extra space; the forwarded content string
drops the space, so it is not byte-identical to the payload's representation
in the inbound raw message. -/
theorem content_not_byte_identical :
    ((Request.from_str
        "\x7b\"requestId\":\"r1\",\"content\":\x7b\"consent\":\x7b\"patient\":\"p1\",\"status\": \"active\"\x7d\x7d\x7d").toOption.map
      Request.content_string) =
      some "\x7b\"consent\":\x7b\"patient\":\"p1\",\"status\":\"active\"\x7d\x7d" ∧
    ((Request.from_str
        "\x7b\"requestId\":\"r1\",\"content\":\x7b\"consent\":\x7b\"patient\":\"p1\",\"status\": \"active\"\x7d\x7d\x7d").toOption.map
      Request.has_consent) = some true ∧
    "\x7b\"requestId\":\"r1\",\"content\":\x7b\"consent\":\x7b\"patient\":\"p1\",\"status\": \"active\"\x7d\x7d\x7d" =
      "\x7b\"requestId\":\"r1\",\"content\":" ++
        "\x7b\"consent\":\x7b\"patient\":\"p1\",\"status\": \"active\"\x7d\x7d" ++ "\x7d" ∧
    "\x7b\"consent\":\x7b\"patient\":\"p1\",\"status\":\"active\"\x7d\x7d" ≠
      "\x7b\"consent\":\x7b\"patient\":\"p1\",\"status\": \"active\"\x7d\x7d" :=
  ⟨rfl, rfl, rfl, by decide⟩

/-- Claim C7 amended: the forwarded content is the compact re-serialization of the
parsed payload value — preserved as a JSON value, not byte-for-byte: parsing
the forwarded string yields exactly the `content` of the decoded request. -/
theorem content_value_preserved (s : String) (req : Request)
    (_h : Request.from_str s = .ok req) :
    req.content_string = req.content.toCompactString ∧
    parseJson req.content_string = some req.content :=
  ⟨rfl, parseJson_toCompactString req.content⟩

/-- Closed instance of the amended C7. -/
theorem content_value_preserved_witness :
    Request.from_str "\x7b\"requestId\":\"r1\",\"content\":\x7b\"a\": [1, 2]\x7d\x7d" =
      .ok ⟨"r1", .obj [("a", .arr [.num 1, .num 2])]⟩ ∧
    parseJson (Request.content_string ⟨"r1", .obj [("a", .arr [.num 1, .num 2])]⟩) =
      some (.obj [("a", .arr [.num 1, .num 2])]) :=
  ⟨rfl,
    (content_value_preserved "\x7b\"requestId\":\"r1\",\"content\":\x7b\"a\": [1, 2]\x7d\x7d"
      ⟨"r1", .obj [("a", .arr [.num 1, .num 2])]⟩ rfl).2⟩

/-- Lookup after map insertion: the inserted key finds the new value, other
keys are untouched. -/
theorem lookupKey_insertKV (acc : List (String × Json)) (k k' : String) (v : Json) :
    lookupKey (insertKV acc k v) k' = if k = k' then some v else lookupKey acc k' := by
  induction acc with
  | nil => simp [insertKV, lookupKey]
  | cons ab rest ih =>
    obtain ⟨a, b⟩ := ab
    rw [insertKV]
    by_cases hak : a = k
    · rw [if_pos hak]
      subst hak
      by_cases hkk : a = k'
      · simp [lookupKey, hkk]
      · simp [lookupKey, hkk]
    · rw [if_neg hak]
      by_cases hak' : a = k'
      · have hkk : ¬(k = k') := fun he => hak (he ▸ hak')
        simp [lookupKey, hak', hkk]
      · simp [lookupKey, hak', ih]

/-- Key presence after map insertion. -/
theorem hasKey_insertKV (acc : List (String × Json)) (k k' : String) (v : Json) :
    hasKey (insertKV acc k v) k' = ((k = k' : Bool) || hasKey acc k') := by
  rw [hasKey, lookupKey_insertKV]
  by_cases hkk : k = k'
  · simp [hkk]
  · simp [hkk, hasKey]

/-- Map insertion preserves uniqueness of keys and well-formedness. -/
theorem nodupMembers_insertKV (acc : List (String × Json)) (k : String) (v : Json)
    (h1 : nodupJsonMembers acc = true) (h2 : nodupJson v = true) :
    nodupJsonMembers (insertKV acc k v) = true := by
  induction acc with
  | nil => simp [insertKV, nodupJsonMembers, hasKey, lookupKey, h2]
  | cons ab rest ih =>
    obtain ⟨a, b⟩ := ab
    rw [nodupJsonMembers, Bool.and_eq_true, Bool.and_eq_true, Bool.not_eq_true'] at h1
    obtain ⟨⟨ha, hb⟩, hrest⟩ := h1
    rw [insertKV]
    by_cases hak : a = k
    · rw [if_pos hak]
      rw [nodupJsonMembers]
      subst hak
      simp [ha, h2, hrest]
    · rw [if_neg hak]
      rw [nodupJsonMembers]
      have hka : ¬(k = a) := fun he => hak he.symm
      have hk : hasKey (insertKV rest k v) a = false := by
        rw [hasKey_insertKV]
        simp [hka, ha]
      simp [hk, hb, ih hrest]

mutual

/-- Every `serde_json::Value` built from a raw parse tree has unique keys. -/
theorem nodup_toValue : ∀ v : Json, nodupJson (toValue v) = true
  | .null => rfl
  | .bool b => rfl
  | .num n => rfl
  | .str s => rfl
  | .arr xs => by
    rw [toValue, nodupJson]
    exact nodup_toValueList xs
  | .obj ms => by
    rw [toValue, nodupJson]
    exact nodup_toValueMembers ms [] rfl
termination_by v => sizeOf v
decreasing_by all_goals simp_wf <;> omega

/-- `nodup_toValue` over array elements. -/
theorem nodup_toValueList : ∀ xs : List Json, nodupJsonList (toValueList xs) = true
  | [] => rfl
  | x :: xs => by
    rw [toValueList, nodupJsonList]
    simp [nodup_toValue x, nodup_toValueList xs]
termination_by xs => sizeOf xs
decreasing_by all_goals simp_wf <;> omega

/-- `nodup_toValue` over object members, folding into a well-formed map. -/
theorem nodup_toValueMembers : ∀ (ms acc : List (String × Json)),
    nodupJsonMembers acc = true → nodupJsonMembers (toValueMembers ms acc) = true
  | [], acc, h => by rwa [toValueMembers]
  | (k, v) :: rest, acc, h => by
    rw [toValueMembers]
    exact nodup_toValueMembers rest _ (nodupMembers_insertKV acc k _ h (nodup_toValue v))
termination_by ms _ _ => sizeOf ms
decreasing_by all_goals simp_wf <;> omega

end

/-- A request decoded from raw members carries a `serde_json::Value` content:
its keys are unique at every level. -/
theorem decodeRequestFields_content (ms : List (String × Json)) :
    ∀ (idOpt : Option String) (c : Option Json) (req : Request),
      decodeRequestFields ms idOpt c = .ok req →
      (∀ j, c = some j → nodupJson j = true) →
      nodupJson req.content = true := by
  induction ms with
  | nil =>
    intro idOpt c req h hc
    cases idOpt with
    | none => cases c <;> simp [decodeRequestFields] at h
    | some idv =>
      cases c with
      | none => simp [decodeRequestFields] at h
      | some j =>
        simp only [decodeRequestFields] at h
        obtain rfl : Request.mk idv j = req := by
          simpa using h
        exact hc j rfl
  | cons kv rest ih =>
    intro idOpt c req h hc
    obtain ⟨k, v⟩ := kv
    simp only [decodeRequestFields] at h
    by_cases hk : isIdKey k
    · rw [if_pos hk] at h
      cases idOpt with
      | some idv => simp at h
      | none =>
        cases hdv : decodeString v with
        | error e => rw [hdv] at h; simp at h
        | ok sv =>
          rw [hdv] at h
          exact ih (some sv) c req h hc
    · rw [if_neg hk] at h
      by_cases hck : k = "content"
      · rw [if_pos hck] at h
        cases c with
        | some cv => simp at h
        | none =>
          exact ih idOpt (some (toValue v)) req h
            (fun j hj => by
              obtain rfl : toValue v = j := by simpa using hj
              exact nodup_toValue v)
      · rw [if_neg hck] at h
        exact ih idOpt c req h hc

/-- The content of any decoded request has unique keys at every level. -/
theorem from_str_content_nodup (s : String) (req : Request)
    (h : Request.from_str s = .ok req) :
    nodupJson req.content = true := by
  rw [Request.from_str] at h
  cases hp : parseJson s with
  | none => rw [hp] at h; simp at h
  | some v =>
    rw [hp] at h
    cases v with
    | obj ms =>
      simp only [decodeRequest] at h
      exact decodeRequestFields_content ms none none req h (fun j hj => by cases hj)
    | null => simp [decodeRequest] at h
    | bool b => simp [decodeRequest] at h
    | num n => simp [decodeRequest] at h
    | str s' => simp [decodeRequest] at h
    | arr xs => simp [decodeRequest] at h

/-- `decodeStatus` succeeds exactly on the two recognized string literals. -/
theorem decodeStatus_isOk (v : Json) :
    (decodeStatus v).isOk =
      (match v with
       | .str st => ((st = "active" : Bool) || (st = "rejected" : Bool))
       | _ => false) := by
  cases v with
  | str st =>
    by_cases h1 : st = "active"
    · simp [decodeStatus, h1, Except.isOk, Except.toBool]
    · by_cases h2 : st = "rejected" <;>
        simp [decodeStatus, h1, h2, Except.isOk, Except.toBool]
  | null => simp [decodeStatus, Except.isOk, Except.toBool]
  | bool b => simp [decodeStatus, Except.isOk, Except.toBool]
  | num n => simp [decodeStatus, Except.isOk, Except.toBool]
  | arr xs => simp [decodeStatus, Except.isOk, Except.toBool]
  | obj ms => simp [decodeStatus, Except.isOk, Except.toBool]

/-- `decodeString` succeeds exactly on strings. -/
theorem decodeString_isOk (v : Json) :
    (decodeString v).isOk = (match v with | .str _ => true | _ => false) := by
  cases v <;> simp [decodeString, Except.isOk, Except.toBool]

/-- The two-slot field loop of `Consent` succeeds precisely when each slot is
already filled or its field is present with a decodable value — given unique
keys and slots not shadowed by remaining fields. -/
theorem decodeConsentFields_isOk (cms : List (String × Json)) :
    ∀ (st : Option Status) (p : Option String),
      nodupJsonMembers cms = true →
      (st.isSome = true → hasKey cms "status" = false) →
      (p.isSome = true → hasKey cms "patient" = false) →
      (decodeConsentFields cms st p).isOk =
        ((st.isSome ||
          (match lookupKey cms "status" with
           | some v => (decodeStatus v).isOk
           | none => false)) &&
         (p.isSome ||
          (match lookupKey cms "patient" with
           | some v => (decodeString v).isOk
           | none => false))) := by
  induction cms with
  | nil =>
    intro st p _ _ _
    cases st <;> cases p <;>
      simp [decodeConsentFields, lookupKey, Except.isOk, Except.toBool]
  | cons kv rest ih =>
    intro st p hnd hst hp
    obtain ⟨k, v⟩ := kv
    rw [nodupJsonMembers, Bool.and_eq_true, Bool.and_eq_true, Bool.not_eq_true'] at hnd
    obtain ⟨⟨hk_rest, _hv⟩, hrest⟩ := hnd
    simp only [decodeConsentFields]
    by_cases hks : k = "status"
    · subst hks
      cases st with
      | some stv => exact absurd (hst rfl) (by simp [hasKey, lookupKey])
      | none =>
        rw [if_pos rfl]
        have hp' : p.isSome = true → hasKey rest "patient" = false := by
          intro hps
          have := hp hps
          simpa [hasKey, lookupKey] using this
        cases hdv : decodeStatus v with
        | ok sv =>
          have hok : (decodeStatus v).isOk = true := by rw [hdv]; rfl
          rw [ih (some sv) p hrest (fun _ => hk_rest) hp']
          simp [lookupKey, hok]
        | error e =>
          simp [lookupKey, hdv, Except.isOk, Except.toBool]
    · by_cases hkp : k = "patient"
      · subst hkp
        cases p with
        | some pv => exact absurd (hp rfl) (by simp [hasKey, lookupKey])
        | none =>
          rw [if_neg hks, if_pos rfl]
          have hst' : st.isSome = true → hasKey rest "status" = false := by
            intro hs
            have := hst hs
            simpa [hasKey, lookupKey, hks] using this
          cases hdv : decodeString v with
          | ok pv =>
            have hok : (decodeString v).isOk = true := by rw [hdv]; rfl
            rw [ih st (some pv) hrest hst' (fun _ => hk_rest)]
            simp [lookupKey, hok, hks]
          | error e =>
            simp [lookupKey, hdv, hks, Except.isOk, Except.toBool]
      · rw [if_neg hks, if_neg hkp]
        have hst' : st.isSome = true → hasKey rest "status" = false := by
          intro hs
          have := hst hs
          simpa [hasKey, lookupKey, hks] using this
        have hp' : p.isSome = true → hasKey rest "patient" = false := by
          intro hps
          have := hp hps
          simpa [hasKey, lookupKey, hkp] using this
        rw [ih st p hrest hst' hp']
        simp [lookupKey, hks, hkp]

/-- `decodeConsent` succeeds exactly on the spec's valid consent objects. -/
theorem decodeConsent_isOk (cv : Json) (h : nodupJson cv = true) :
    (decodeConsent cv).isOk = consentValidSpec cv := by
  cases cv with
  | obj cms =>
    rw [nodupJson] at h
    simp only [decodeConsent, consentValidSpec]
    rw [decodeConsentFields_isOk cms none none h (by simp) (by simp)]
    cases hs : lookupKey cms "status" with
    | none => cases hpl : lookupKey cms "patient" <;> simp
    | some sv =>
      cases hpl : lookupKey cms "patient" with
      | none => simp
      | some pv =>
        cases sv <;> cases pv <;>
          simp [decodeStatus_isOk, decodeString_isOk, Bool.and_comm]
  | null => simp [decodeConsent, consentValidSpec, Except.isOk, Except.toBool]
  | bool b => simp [decodeConsent, consentValidSpec, Except.isOk, Except.toBool]
  | num n => simp [decodeConsent, consentValidSpec, Except.isOk, Except.toBool]
  | str s => simp [decodeConsent, consentValidSpec, Except.isOk, Except.toBool]
  | arr xs => simp [decodeConsent, consentValidSpec, Except.isOk, Except.toBool]

/-- Once the consent slot is filled and no further consent field remains, the
field loop succeeds with it. -/
theorem decodeMTBFileFields_filled (ms : List (String × Json)) :
    ∀ c : Consent, hasKey ms "consent" = false →
      decodeMTBFileFields ms (some c) = .ok ⟨c⟩ := by
  induction ms with
  | nil => intro c _; rfl
  | cons kv rest ih =>
    intro c h
    obtain ⟨k, v⟩ := kv
    have hk : ¬(k = "consent") := by
      intro he
      rw [he] at h
      simp [hasKey, lookupKey] at h
    simp only [decodeMTBFileFields]
    rw [if_neg hk]
    exact ih c (by simpa [hasKey, lookupKey, hk] using h)

/-- The `MTBFileWithConsent` field loop succeeds exactly when a decodable
consent field is present — given unique keys. -/
theorem decodeMTBFileFields_isOk (ms : List (String × Json))
    (h : nodupJsonMembers ms = true) :
    (decodeMTBFileFields ms none).isOk =
      (match lookupKey ms "consent" with
       | some cv => (decodeConsent cv).isOk
       | none => false) := by
  induction ms with
  | nil => simp [decodeMTBFileFields, lookupKey, Except.isOk, Except.toBool]
  | cons kv rest ih =>
    obtain ⟨k, v⟩ := kv
    rw [nodupJsonMembers, Bool.and_eq_true, Bool.and_eq_true, Bool.not_eq_true'] at h
    obtain ⟨⟨hk_rest, _⟩, hrest⟩ := h
    by_cases hk : k = "consent"
    · subst hk
      cases hdv : decodeConsent v with
      | ok cv =>
        have hstep : decodeMTBFileFields (("consent", v) :: rest) none =
            decodeMTBFileFields rest (some cv) := by
          simp [decodeMTBFileFields, hdv]
        rw [hstep, decodeMTBFileFields_filled rest cv hk_rest]
        simp [lookupKey, hdv, Except.isOk, Except.toBool]
      | error e =>
        have hstep : decodeMTBFileFields (("consent", v) :: rest) none =
            (.error () : Except Unit MTBFileWithConsent) := by
          simp [decodeMTBFileFields, hdv]
        rw [hstep]
        simp [lookupKey, hdv, Except.isOk, Except.toBool]
    · have hstep : decodeMTBFileFields ((k, v) :: rest) none =
          decodeMTBFileFields rest none := by
        simp only [decodeMTBFileFields]
        rw [if_neg hk]
      rw [hstep, ih hrest]
      simp [lookupKey, hk]

/-- A value found in a well-formed member list is itself well-formed. -/
theorem lookupKey_nodupJson (ms : List (String × Json)) (key : String) (v : Json)
    (hnd : nodupJsonMembers ms = true) (h : lookupKey ms key = some v) :
    nodupJson v = true := by
  induction ms with
  | nil => simp [lookupKey] at h
  | cons kv rest ih =>
    obtain ⟨k, w⟩ := kv
    rw [nodupJsonMembers, Bool.and_eq_true, Bool.and_eq_true] at hnd
    obtain ⟨⟨_, hw⟩, hrest⟩ := hnd
    simp only [lookupKey] at h
    by_cases hk : k = key
    · rw [if_pos hk] at h
      obtain rfl : w = v := by simpa using h
      exact hw
    · rw [if_neg hk] at h
      exact ih hrest h

/-- Deciding an `MTBFileWithConsent` on a `serde_json::Value` succeeds
exactly on the spec's valid consent records. -/
theorem decodeMTBFile_isOk (content : Json) (h : nodupJson content = true) :
    (decodeMTBFile content).isOk = consentRecordValidSpec content := by
  cases content with
  | obj ms =>
    rw [nodupJson] at h
    simp only [decodeMTBFile, consentRecordValidSpec]
    rw [decodeMTBFileFields_isOk ms h]
    cases hlk : lookupKey ms "consent" with
    | none => rfl
    | some cv => exact decodeConsent_isOk cv (lookupKey_nodupJson ms "consent" cv h hlk)
  | null => simp [decodeMTBFile, consentRecordValidSpec, Except.isOk, Except.toBool]
  | bool b => simp [decodeMTBFile, consentRecordValidSpec, Except.isOk, Except.toBool]
  | num n => simp [decodeMTBFile, consentRecordValidSpec, Except.isOk, Except.toBool]
  | str s => simp [decodeMTBFile, consentRecordValidSpec, Except.isOk, Except.toBool]
  | arr xs => simp [decodeMTBFile, consentRecordValidSpec, Except.isOk, Except.toBool]

/-- Claim C2: dispatch eligibility holds exactly when the envelope decodes into a
`Request` and that request's content additionally holds a valid consent
record — a consent object with a patient string and one of the two
recognized status literals; envelope parse success alone never suffices. -/
theorem can_parse_iff_valid_consent_record (s : String) :
    Request.can_parse s = true ↔
      ∃ req, Request.from_str s = .ok req ∧ consentRecordValidSpec req.content = true := by
  constructor
  · intro h
    cases hreq : Request.from_str s with
    | error e =>
      rw [Request.can_parse, hreq] at h
      exact absurd h (by simp)
    | ok req =>
      refine ⟨req, rfl, ?_⟩
      rw [Request.can_parse, hreq] at h
      have h' : (MTBFileWithConsent.from_str req.content_string).isOk = true := h
      rw [Request.content_string, mtb_from_str_toCompactString,
        decodeMTBFile_isOk req.content (from_str_content_nodup s req hreq)] at h'
      exact h'
  · rintro ⟨req, hreq, hvalid⟩
    rw [Request.can_parse, hreq]
    show (MTBFileWithConsent.from_str req.content_string).isOk = true
    rw [Request.content_string, mtb_from_str_toCompactString,
      decodeMTBFile_isOk req.content (from_str_content_nodup s req hreq)]
    exact hvalid
